import Mathlib

/-!
# Verification of the humanoid-gym log-analysis and episode-logging utilities

Shallow embedding of `src/humanoid/data_analyzer.py` and
`src/humanoid/utils/logger.py`.

Python floats are modelled as exact rationals (`ℚ`); all values occurring in
the claims are exactly representable and all arithmetic involved is exact.
`np.std` returns the nonnegative square root of the population variance; since
square roots leave `ℚ`, the embedding exposes the population variance
(`var`) and states standard-deviation facts through the predicate
`isStdList` (`s` is the std of variance `v` iff `0 ≤ s ∧ s * s = v`).

A log file is modelled as its list of lines, each line a `List Char`.
-/

set_option maxHeartbeats 1000000

/-- Python's `int(s)` on a nonempty string of decimal digits. -/
def digitsToNat (ds : List Char) : Nat :=
  ds.foldl (fun n c => 10 * n + (c.toNat - '0'.toNat)) 0

/-- The character class `[-\d\., ]` appearing in both data patterns of
`DATA_TYPES` in `data_analyzer.py`. -/
def valClass (c : Char) : Bool :=
  c = '-' || c.isDigit || c = '.' || c = ',' || c = ' '

/-- Attempt to match, at the start of `s`, a regex of the shape
`lit (cls+) close` — a literal text, a captured nonempty greedy run of
characters of class `cls`, and a closing character not in `cls`.  Both the
step pattern `Step (\d+):` and the data patterns
`... \[([-\d\., ]+)\]` of `data_analyzer.py` have this shape.  Because
`close` is outside the class, greedy matching with backtracking succeeds
iff the maximal class run is nonempty and followed by `close`; the capture
is that maximal run. -/
def capAt (lit : List Char) (cls : Char → Bool) (close : Char) (s : List Char) :
    Option (List Char) :=
  if lit.isPrefixOf s then
    let rest := s.drop lit.length
    let run := rest.takeWhile cls
    match rest.dropWhile cls with
    | c :: _ => if run ≠ [] ∧ c = close then some run else none
    | [] => none
  else none

/-- Python `re.search` for a pattern of the shape handled by `capAt`:
try each start position left to right, return the capture of the first
position where the whole pattern matches. -/
def searchCap (lit : List Char) (cls : Char → Bool) (close : Char) :
    List Char → Option (List Char)
  | [] => none
  | c :: rest =>
    match capAt lit cls close (c :: rest) with
    | some r => some r
    | none => searchCap lit cls close rest

/-- `step_pattern.search(line)` followed by `int(...)` on the captured group:
the regex `Step (\d+):` from `parse_log_data`. -/
def stepFind (line : List Char) : Option Nat :=
  (searchCap ("Step ".toList) Char.isDigit ':' line).map digitsToNat

/-- One entry of `DATA_TYPES`: the literal text of the extraction pattern up
to and including the opening bracket (the rest of the pattern is the common
captured class run and the closing bracket). -/
structure DataKind where
  lit : List Char
deriving DecidableEq, Repr

/-- `DATA_TYPES["torque"]`: pattern `Output Torque: \[([-\d\., ]+)\]`. -/
def torqueKind : DataKind := ⟨"Output Torque: [".toList⟩

/-- `DATA_TYPES["action"]`: pattern
`Actions\[0 ~ 11\] --> joint_target: \[([-\d\., ]+)\]`. -/
def actionKind : DataKind := ⟨"Actions[0 ~ 11] --> joint_target: [".toList⟩

/-- `data_pattern.search(line)` returning the captured group. -/
def dataFind (d : DataKind) (line : List Char) : Option (List Char) :=
  searchCap d.lit valClass ']' line

/-- Python `s.split(", ")`: split on each non-overlapping occurrence of the
two-character separator, scanning left to right. -/
def splitCS : List Char → List (List Char)
  | [] => [[]]
  | [c] => [[c]]
  | c1 :: c2 :: rest =>
    if c1 = ',' ∧ c2 = ' ' then [] :: splitCS rest
    else
      match splitCS (c2 :: rest) with
      | [] => [[c1]]
      | h :: t => (c1 :: h) :: t

/-- Python `float(tok)` restricted to the alphabet that can occur in a
captured group (digits, `-`, `.`, `,`, space): strip surrounding spaces,
allow an optional leading minus sign, then a decimal mantissa with at least
one digit (`d+`, `d+.d*` or `.d+`); everything else raises `ValueError`
(`none`).  Exponents, `inf`/`nan`, `+` signs and underscores cannot occur in
the captured alphabet. -/
def parseFloat (tok : List Char) : Option ℚ :=
  let s := ((tok.dropWhile (· = ' ')).reverse.dropWhile (· = ' ')).reverse
  let neg : Bool := match s with
    | '-' :: _ => true
    | _ => false
  let body := if neg then s.drop 1 else s
  let intPart := body.takeWhile Char.isDigit
  let rest := body.dropWhile Char.isDigit
  match rest with
  | [] =>
    if intPart ≠ [] then
      let v : ℚ := (digitsToNat intPart : ℚ)
      some (if neg then -v else v)
    else none
  | '.' :: frac =>
    if frac.all Char.isDigit ∧ (intPart ≠ [] ∨ frac ≠ []) then
      let v : ℚ := (digitsToNat intPart : ℚ) +
        (digitsToNat frac : ℚ) / ((10 : ℚ) ^ frac.length)
      some (if neg then -v else v)
    else none
  | _ => none

/-- `[float(x) for x in data_match.group(1).split(", ")]`; `none` models the
`ValueError` raised by a malformed token. -/
def parseVals (cap : List Char) : Option (List ℚ) :=
  (splitCS cap).mapM parseFloat

/-- The update of `current_step` on one line: `parse_log_data` applies the
step rule first, keeping the previous value when the line has no step
declaration. -/
def updateStep (cur : Option Nat) (line : List Char) : Option Nat :=
  match stepFind line with
  | some n => some n
  | none => cur

/-- The line loop of `parse_log_data`: scan lines in order, updating
`current_step` via the step rule, and for every line where the data rule
matches while a current step is defined, emit `(current_step, values)`.
`none` models the `ValueError` escaping from `float` on a malformed token,
which aborts the whole extraction. -/
def scanLoop (d : DataKind) : List (List Char) → Option Nat →
    Option (List Nat × List (List ℚ))
  | [], _ => some ([], [])
  | line :: rest, cur =>
    let cur' := updateStep cur line
    match dataFind d line, cur' with
    | some cap, some s =>
      match parseVals cap with
      | none => none
      | some vs =>
        match scanLoop d rest cur' with
        | none => none
        | some (steps, mat) => some (s :: steps, vs :: mat)
    | _, _ => scanLoop d rest cur'

/-- `np.array(data_matrix)` on a list of rows: numpy (≥ 1.24) raises
`ValueError` on an inhomogeneous nested sequence, so the conversion yields
the rows unchanged when they all share one length and fails otherwise. -/
def npArray (rows : List (List ℚ)) : Option (List (List ℚ)) :=
  match rows with
  | [] => some []
  | r :: rest => if rest.all (fun r2 => r2.length = r.length) then some (r :: rest) else none

/-- `parse_log_data(log_file, data_type)`: run the line loop from an
undefined current step, then materialize the matrix with `np.array`.
`none` models an exception escaping (malformed float token or inhomogeneous
rows). -/
def parse_log_data (d : DataKind) (lines : List (List Char)) :
    Option (List Nat × List (List ℚ)) :=
  match scanLoop d lines none with
  | none => none
  | some (steps, mat) =>
    match npArray mat with
    | none => none
    | some m => some (steps, m)

/-- The value of `current_step` after scanning a list of lines, starting
from `cur` (only the step rule updates it). -/
def trackStep (cur : Option Nat) : List (List Char) → Option Nat
  | [] => cur
  | line :: rest => trackStep (updateStep cur line) rest

/-! ## Statistics engine (`calculate_stats`) -/

/-- `np.max` over a nonempty list (axis-0 reduction of one column). -/
def listMax : List ℚ → ℚ
  | [] => 0
  | x :: xs => xs.foldl max x

/-- `np.mean` of a list: sum divided by length. -/
def listMean (l : List ℚ) : ℚ := l.sum / (l.length : ℚ)

/-- The values of column `c` of a row-major matrix (in-range for every
column index of a rectangular matrix). -/
def colVals (m : List (List ℚ)) (c : Nat) : List ℚ :=
  m.map (fun r => r.getD c 0)

/-- The result dictionary of `calculate_stats`, with `np.std` exposed as the
population variance `var` (std is its nonnegative square root, see
`isStdList`). -/
structure StatsResult where
  max_abs : List ℚ
  mean : List ℚ
  mean_abs : List ℚ
  var : List ℚ
deriving DecidableEq, Repr

/-- `calculate_stats(data_matrix)`: per-column max of absolute values,
mean, mean of absolute values, and population variance (`np.std` squared;
numpy computes the mean of squared deviations and takes its square root,
dividing by `N`, not `N - 1`).  `np.max` raises on an empty axis, so the
empty matrix yields `none`. -/
def calculate_stats (m : List (List ℚ)) : Option StatsResult :=
  match m with
  | [] => none
  | r0 :: _ =>
    let cols := List.range r0.length
    some {
      max_abs := cols.map (fun c => listMax ((colVals m c).map (fun x => |x|)))
      mean := cols.map (fun c => listMean (colVals m c))
      mean_abs := cols.map (fun c => listMean ((colVals m c).map (fun x => |x|)))
      var := cols.map (fun c =>
        listMean ((colVals m c).map (fun x => (x - listMean (colVals m c)) ^ 2)))
    }

/-- `stds` is elementwise the `np.std` value of the variances `vars`:
same length, each entry nonnegative with square equal to the variance. -/
def isStdList (vars stds : List ℚ) : Bool :=
  vars.length = stds.length &&
    (vars.zip stds).all (fun p => decide (0 ≤ p.2) && decide (p.2 * p.2 = p.1))

/-! ## Episode logger (`logger.py`)

Values pushed into the logs are Python objects: plain numbers, plain
(nested) lists, numpy arrays, or torch tensors (the latter carry a `cpu`
method).  `PyVal` distinguishes exactly these shapes, which is what
`_convert_log` dispatches on. -/

/-- A value stored in a log series: a number, a plain Python list, a numpy
array, or a torch tensor. -/
inductive PyVal where
  | num (q : ℚ)
  | list (vs : List PyVal)
  | nparr (vs : List PyVal)
  | tensor (vs : List PyVal)

mutual

/-- Decidable equality on `PyVal` (the `deriving` handler does not support
nested inductives). -/
def PyVal.decEq : (a b : PyVal) → Decidable (a = b)
  | .num a, .num b =>
    if h : a = b then .isTrue (by rw [h])
    else .isFalse (fun hh => h (by injection hh))
  | .num _, .list _ => .isFalse (fun hh => PyVal.noConfusion hh)
  | .num _, .nparr _ => .isFalse (fun hh => PyVal.noConfusion hh)
  | .num _, .tensor _ => .isFalse (fun hh => PyVal.noConfusion hh)
  | .list _, .num _ => .isFalse (fun hh => PyVal.noConfusion hh)
  | .list as, .list bs =>
    match PyVal.decEqList as bs with
    | .isTrue h => .isTrue (by rw [h])
    | .isFalse h => .isFalse (fun hh => h (by injection hh))
  | .list _, .nparr _ => .isFalse (fun hh => PyVal.noConfusion hh)
  | .list _, .tensor _ => .isFalse (fun hh => PyVal.noConfusion hh)
  | .nparr _, .num _ => .isFalse (fun hh => PyVal.noConfusion hh)
  | .nparr _, .list _ => .isFalse (fun hh => PyVal.noConfusion hh)
  | .nparr as, .nparr bs =>
    match PyVal.decEqList as bs with
    | .isTrue h => .isTrue (by rw [h])
    | .isFalse h => .isFalse (fun hh => h (by injection hh))
  | .nparr _, .tensor _ => .isFalse (fun hh => PyVal.noConfusion hh)
  | .tensor _, .num _ => .isFalse (fun hh => PyVal.noConfusion hh)
  | .tensor _, .list _ => .isFalse (fun hh => PyVal.noConfusion hh)
  | .tensor _, .nparr _ => .isFalse (fun hh => PyVal.noConfusion hh)
  | .tensor as, .tensor bs =>
    match PyVal.decEqList as bs with
    | .isTrue h => .isTrue (by rw [h])
    | .isFalse h => .isFalse (fun hh => h (by injection hh))

/-- Decidable equality on lists of `PyVal`. -/
def PyVal.decEqList : (a b : List PyVal) → Decidable (a = b)
  | [], [] => .isTrue rfl
  | [], _ :: _ => .isFalse (fun hh => List.noConfusion hh)
  | _ :: _, [] => .isFalse (fun hh => List.noConfusion hh)
  | a :: as, b :: bs =>
    match PyVal.decEq a b, PyVal.decEqList as bs with
    | .isTrue h1, .isTrue h2 => .isTrue (by rw [h1, h2])
    | .isFalse h1, _ =>
      .isFalse (fun hh => h1 (by injection hh))
    | _, .isFalse h2 =>
      .isFalse (fun hh => h2 (by injection hh))

end

instance instDecidableEqPyVal : DecidableEq PyVal := PyVal.decEq

mutual

/-- Materialization of a value to plain nested Python lists and numbers:
what `v.cpu().numpy().tolist()` or `v.tolist()` produces. -/
def plainify : PyVal → PyVal
  | .num q => .num q
  | .list vs => .list (plainifyList vs)
  | .nparr vs => .list (plainifyList vs)
  | .tensor vs => .list (plainifyList vs)

/-- `plainify` mapped over a list of values. -/
def plainifyList : List PyVal → List PyVal
  | [] => []
  | v :: vs => plainify v :: plainifyList vs

end

mutual

/-- A value already consisting only of plain numbers and plain lists. -/
def plainVal : PyVal → Bool
  | .num _ => true
  | .list vs => plainValList vs
  | .nparr _ => false
  | .tensor _ => false

/-- `plainVal` over all elements of a list. -/
def plainValList : List PyVal → Bool
  | [] => true
  | v :: vs => plainVal v && plainValList vs

end

/-- Duck-typed `hasattr(v, "cpu")`: true exactly for torch tensors. -/
def hasCpu : PyVal → Bool
  | .tensor _ => true
  | _ => false

/-- `isinstance(v, np.ndarray)`. -/
def isNdarray : PyVal → Bool
  | .nparr _ => true
  | _ => false

/-- `v.cpu().numpy().tolist()`: defined on tensors, `AttributeError`
(`none`) otherwise. -/
def cpuNumpyTolist : PyVal → Option PyVal
  | .tensor vs => some (.list (plainifyList vs))
  | _ => none

/-- `v.tolist()`: defined on numpy arrays and torch tensors,
`AttributeError` (`none`) otherwise. -/
def tolist : PyVal → Option PyVal
  | .nparr vs => some (.list (plainifyList vs))
  | .tensor vs => some (.list (plainifyList vs))
  | _ => none

/-- The per-series body of `Logger._convert_log`: a nonempty list whose
first element is a tensor is converted by `cpu().numpy().tolist()`, one
whose first element is a numpy array by `tolist()`, and anything else is
kept unchanged.  (The stored series is always a Python list, so the
`isinstance(values, (list, np.ndarray))` test holds whenever it is
nonempty.)  `none` models an `AttributeError` escaping from a
heterogeneous series. -/
def convertSeries (values : List PyVal) : Option (List PyVal) :=
  match values with
  | [] => some []
  | v0 :: _ =>
    if hasCpu v0 then values.mapM cpuNumpyTolist
    else if isNdarray v0 then values.mapM tolist
    else some values

/-- `Logger._convert_log` over a whole mapping (insertion-ordered
association list, as a Python dict). -/
def convertLog (log : List (String × List PyVal)) :
    Option (List (String × List PyVal)) :=
  log.mapM (fun p => (convertSeries p.2).map (fun vs => (p.1, vs)))

/-- Append `v` to the series of `key` in an insertion-ordered mapping,
creating the series at the end on first use (`defaultdict(list)` access
followed by `append`). -/
def dictAppend (log : List (String × List PyVal)) (key : String) (v : PyVal) :
    List (String × List PyVal) :=
  match log with
  | [] => [(key, [v])]
  | (k, vs) :: rest =>
    if k = key then (k, vs ++ [v]) :: rest else (k, vs) :: dictAppend rest key v

/-- Python's `needle in haystack` substring test on strings. -/
def isSubstring (needle : List Char) : List Char → Bool
  | [] => needle.isEmpty
  | c :: rest => needle.isPrefixOf (c :: rest) || isSubstring needle rest

/-- The mutable state of `Logger`: two insertion-ordered mappings from
names to series, the time step, and the episode counter.  The
`plot_process` handle is I/O-only state and is not modelled. -/
structure Logger where
  state_log : List (String × List PyVal)
  rew_log : List (String × List PyVal)
  dt : ℚ
  num_episodes : Int
deriving DecidableEq

/-- `Logger.log_state`: append `value` to `state_log[key]`. -/
def Logger.log_state (lg : Logger) (key : String) (value : PyVal) : Logger :=
  { lg with state_log := dictAppend lg.state_log key value }

/-- `Logger.log_rewards(dict, num_episodes)`: for every entry whose key
contains `"rew"`, append `value.item() * num_episodes` to
`rew_log[key]`; then add `num_episodes` to the episode counter.  Entries
are scalar tensors; their extracted value is modelled as the rational
itself. -/
def Logger.log_rewards (lg : Logger) (dict : List (String × ℚ))
    (num_episodes : Int) : Logger :=
  { lg with
    rew_log := dict.foldl (fun rl p =>
      if isSubstring ("rew".toList) (p.1.toList) then
        dictAppend rl p.1 (.num (p.2 * (num_episodes : ℚ)))
      else rl) lg.rew_log
    num_episodes := lg.num_episodes + num_episodes }

/-- `Logger.reset`: clear both mappings. -/
def Logger.reset (lg : Logger) : Logger :=
  { lg with state_log := [], rew_log := [] }

/-- The serializable dictionary built by `Logger.save` before choosing a
format. -/
structure SaveData where
  dt : ℚ
  state_log : List (String × List PyVal)
  rew_log : List (String × List PyVal)
  num_episodes : Int
deriving DecidableEq

/-- A file written by `Logger.save`: its suffix and its content.  JSON and
pickle serialization of the already-plain data dictionary are thin I/O
wrappers and are modelled as faithful round-trips of the dictionary. -/
structure SavedFile where
  fmt : String
  data : SaveData
deriving DecidableEq

instance instDecidableEqExceptSF {e a : Type} [DecidableEq e] [DecidableEq a] :
    DecidableEq (Except e a) := fun x y =>
  match x, y with
  | .ok u, .ok v =>
    if h : u = v then .isTrue (by rw [h]) else .isFalse (by simp [h])
  | .error u, .error v =>
    if h : u = v then .isTrue (by rw [h]) else .isFalse (by simp [h])
  | .ok _, .error _ => .isFalse (by simp)
  | .error _, .ok _ => .isFalse (by simp)

/-- The `data` dictionary constructed in `Logger.save` (built before the
format is examined); `none` models an `AttributeError` escaping from
`_convert_log`. -/
def Logger.mkSaveData (lg : Logger) : Option SaveData := do
  let s ← convertLog lg.state_log
  let r ← convertLog lg.rew_log
  some ⟨lg.dt, s, r, lg.num_episodes⟩

/-- `Logger.save(filename, format, save_dir)`: build the data dictionary,
then dispatch on the format; any format other than `"json"` and `"pkl"`
raises `ValueError` (`Except.error`) without writing anything.  The outer
`none` models the conversion failing before the format check. -/
def Logger.save (lg : Logger) (format : String) :
    Option (Except String SavedFile) :=
  (lg.mkSaveData).map (fun data =>
    if format = "json" then .ok ⟨"json", data⟩
    else if format = "pkl" then .ok ⟨"pkl", data⟩
    else .error ("Unsupported format: " ++ format))

/-- `Logger.load(filepath)`: dispatch on the file's suffix; a suffix other
than `json` and `pkl` raises `ValueError` before any data is read;
otherwise every field of the logger is replaced by the loaded content. -/
def Logger.load (_lg : Logger) (f : SavedFile) : Except String Logger :=
  if f.fmt = "json" then
    .ok ⟨f.data.state_log, f.data.rew_log, f.data.dt, f.data.num_episodes⟩
  else if f.fmt = "pkl" then
    .ok ⟨f.data.state_log, f.data.rew_log, f.data.dt, f.data.num_episodes⟩
  else .error ("Unsupported format: " ++ f.fmt)

/-- Modelled from the spec: the claimed normalization of one series —
every value normalized to plain nested numeric lists. -/
def specNormalizeSeries (vs : List PyVal) : List PyVal :=
  vs.map plainify

/-- A series that `_convert_log` handles uniformly: all tensors, all numpy
arrays, or all plain values. -/
def goodSeries (vs : List PyVal) : Bool :=
  vs.all hasCpu || vs.all isNdarray || plainValList vs

/-! ## Unfolding lemmas for the parser loop -/

/-- The loop on an empty file yields empty results. -/
theorem scanLoop_nil (d : DataKind) (cur : Option Nat) :
    scanLoop d [] cur = some ([], []) := rfl

/-- A line where the data rule does not match contributes nothing; the scan
continues with the step-updated state. -/
theorem scanLoop_cons_no_data (d : DataKind) (line : List Char)
    (rest : List (List Char)) (cur : Option Nat)
    (h : dataFind d line = none) :
    scanLoop d (line :: rest) cur = scanLoop d rest (updateStep cur line) := by
  simp only [scanLoop, h]

/-- A line processed while no step is defined (even after this line's own
step rule) contributes nothing. -/
theorem scanLoop_cons_no_step (d : DataKind) (line : List Char)
    (rest : List (List Char)) (cur : Option Nat)
    (h : updateStep cur line = none) :
    scanLoop d (line :: rest) cur = scanLoop d rest (updateStep cur line) := by
  simp only [scanLoop, h]
  cases dataFind d line
  · rfl
  · rfl

/-- A line where the data rule matches with a defined current step emits a
record (or aborts everything when a token is malformed). -/
theorem scanLoop_cons_hit (d : DataKind) (line : List Char)
    (rest : List (List Char)) (cur : Option Nat) (cap : List Char) (n : Nat)
    (hd : dataFind d line = some cap) (hs : updateStep cur line = some n) :
    scanLoop d (line :: rest) cur =
      match parseVals cap with
      | none => none
      | some vs =>
        (scanLoop d rest (some n)).map (fun p => (n :: p.1, vs :: p.2)) := by
  simp only [scanLoop, hd, hs]
  cases parseVals cap with
  | none => rfl
  | some vs =>
    cases h : scanLoop d rest (some n) with
    | none => rfl
    | some p => cases p; rfl

/-- Steps and rows are appended in lockstep, so the loop preserves equal
lengths. -/
theorem scanLoop_length (d : DataKind) :
    ∀ (lines : List (List Char)) (cur : Option Nat) (steps : List Nat)
      (mat : List (List ℚ)), scanLoop d lines cur = some (steps, mat) →
      steps.length = mat.length := by
  intro lines
  induction lines with
  | nil =>
    intro cur steps mat h
    rw [scanLoop_nil] at h
    obtain ⟨h1, h2⟩ := Prod.mk.injEq .. ▸ (Option.some.injEq .. ▸ h)
    simp [← h1, ← h2]
  | cons line rest ih =>
    intro cur steps mat h
    rcases hd : dataFind d line with _ | cap
    · rw [scanLoop_cons_no_data d line rest cur hd] at h
      exact ih _ _ _ h
    · rcases hs : updateStep cur line with _ | n
      · rw [scanLoop_cons_no_step d line rest cur hs] at h
        exact ih _ _ _ h
      · rw [scanLoop_cons_hit d line rest cur cap n hd hs] at h
        rcases hv : parseVals cap with _ | vs
        · rw [hv] at h
          exact absurd h (by simp)
        · rw [hv] at h
          simp only [Option.map_eq_some'] at h
          obtain ⟨p, hp, hpe⟩ := h
          obtain ⟨h1, h2⟩ := Prod.mk.injEq .. ▸ hpe
          have := ih _ _ _ hp
          simp [← h1, ← h2, this]

/-- When `np.array` succeeds the rows are unchanged and pairwise of equal
length. -/
theorem npArray_some (m m' : List (List ℚ)) (h : npArray m = some m') :
    m' = m ∧ ∀ r ∈ m, ∀ r2 ∈ m, r.length = r2.length := by
  cases m with
  | nil =>
    simp only [npArray, Option.some.injEq] at h
    subst h
    simp
  | cons r rest =>
    simp only [npArray] at h
    by_cases hall : (rest.all fun r2 => decide (r2.length = r.length)) = true
    · rw [if_pos hall] at h
      obtain rfl : m' = r :: rest := (Option.some.injEq .. ▸ h).symm
      refine ⟨rfl, ?_⟩
      have hlen : ∀ x ∈ r :: rest, x.length = r.length := by
        intro x hx
        rcases List.mem_cons.mp hx with rfl | hx
        · rfl
        · exact of_decide_eq_true (List.all_eq_true.mp hall x hx)
      intro a ha b hb
      rw [hlen a ha, hlen b hb]
    · rw [if_neg hall] at h
      exact absurd h (by simp)

/-- `np.array` fails on rows of differing lengths. -/
theorem npArray_ragged (m : List (List ℚ))
    (h : ∃ r ∈ m, ∃ r2 ∈ m, r.length ≠ r2.length) : npArray m = none := by
  by_contra hne
  rcases Option.ne_none_iff_exists'.mp hne with ⟨m', hm⟩
  obtain ⟨-, huni⟩ := npArray_some m m' hm
  obtain ⟨r, hr, r2, hr2, hne2⟩ := h
  exact hne2 (huni r hr r2 hr2)

/-- A failing line loop makes the whole extraction fail. -/
theorem parse_of_scanLoop_none (d : DataKind) (lines : List (List Char))
    (h : scanLoop d lines none = none) : parse_log_data d lines = none := by
  simp [parse_log_data, h]

/-- A data line with a malformed token, reached while a step is defined,
makes the whole scan fail, wherever it sits in the file. -/
theorem scanLoop_malformed (d : DataKind) (line : List Char)
    (post : List (List Char)) (cap : List Char)
    (hd : dataFind d line = some cap) (hv : parseVals cap = none) :
    ∀ (pre : List (List Char)) (cur : Option Nat),
      trackStep cur (pre ++ [line]) ≠ none →
      scanLoop d (pre ++ line :: post) cur = none := by
  intro pre
  induction pre with
  | nil =>
    intro cur htr
    rcases hs : updateStep cur line with _ | n
    · exact absurd (show trackStep cur [line] = none by simp [trackStep, hs]) htr
    · rw [List.nil_append, scanLoop_cons_hit d line post cur cap n hd hs, hv]
  | cons p pre' ih =>
    intro cur htr
    have htr' : trackStep (updateStep cur p) (pre' ++ [line]) ≠ none := by
      simpa [trackStep] using htr
    rcases hd' : dataFind d p with _ | cap'
    · rw [List.cons_append, scanLoop_cons_no_data d p _ cur hd']
      exact ih (updateStep cur p) htr'
    · rcases hs' : updateStep cur p with _ | n
      · rw [List.cons_append, scanLoop_cons_no_step d p _ cur hs']
        exact ih (updateStep cur p) htr'
      · rw [List.cons_append, scanLoop_cons_hit d p _ cur cap' n hd' hs']
        rcases hv' : parseVals cap' with _ | vs
        · rfl
        · rw [hs'] at htr'
          simp only [hv', ih (some n) htr', Option.map_none']

/-! ## Lemmas about the statistics of a single row -/

/-- The mean of one observation is that observation. -/
theorem listMean_singleton (x : ℚ) : listMean [x] = x := by
  simp [listMean]

/-- The maximum of one observation is that observation. -/
theorem listMax_singleton (x : ℚ) : listMax [x] = x := rfl

/-- On a single-row matrix, `calculate_stats` returns the row itself as
mean, its absolute values as max-absolute and mean-absolute, and zero
variance everywhere. -/
theorem calculate_stats_single (r : List ℚ) :
    calculate_stats [r] =
      some { max_abs := r.map (fun x => |x|), mean := r,
             mean_abs := r.map (fun x => |x|),
             var := List.replicate r.length 0 } := by
  unfold calculate_stats
  simp only [Option.some.injEq, StatsResult.mk.injEq]
  have hcol : ∀ c : Nat, colVals [r] c = [r.getD c 0] := fun c => rfl
  refine ⟨?_, ?_, ?_, ?_⟩
  · apply List.ext_getElem
    · simp
    · intro i h1 h2
      simp only [List.getElem_map, List.getElem_range, hcol, List.map_cons,
        List.map_nil, listMax_singleton, List.getD]
      have hb : i < r.length := by simpa using h2
      simp [List.getElem?_eq_getElem hb]
  · apply List.ext_getElem
    · simp
    · intro i h1 h2
      simp only [List.getElem_map, List.getElem_range, hcol, List.map_cons,
        List.map_nil, listMean_singleton, List.getD]
      have hb : i < r.length := by simpa using h2
      simp [List.getElem?_eq_getElem hb]
  · apply List.ext_getElem
    · simp
    · intro i h1 h2
      simp only [List.getElem_map, List.getElem_range, hcol, List.map_cons,
        List.map_nil, listMean_singleton, List.getD]
      have hb : i < r.length := by simpa using h2
      simp [List.getElem?_eq_getElem hb]
  · apply List.ext_getElem
    · simp
    · intro i h1 h2
      simp only [List.getElem_map, List.getElem_range, hcol, List.map_cons,
        List.map_nil, listMean_singleton, List.getD]
      have hb : i < r.length := by simpa using h2
      simp [List.getElem?_eq_getElem hb]

/-- Zero is its own nonnegative square root: an all-zero variance list has
the all-zero list as its `np.std`. -/
theorem isStdList_zeros (n : Nat) :
    isStdList (List.replicate n 0) (List.replicate n 0) = true := by
  rw [isStdList, Bool.and_eq_true]
  refine ⟨by simp, ?_⟩
  rw [List.all_eq_true]
  intro p hp
  obtain ⟨a, b⟩ := p
  obtain ⟨h1, h2⟩ := List.of_mem_zip hp
  rw [List.eq_of_mem_replicate h1, List.eq_of_mem_replicate h2]
  norm_num

/-! ## Lemmas about `_convert_log` -/

/-- The list form of `plainify` agrees with `List.map`. -/
theorem plainifyList_eq_map : ∀ vs : List PyVal, plainifyList vs = vs.map plainify
  | [] => rfl
  | v :: vs => by rw [plainifyList, List.map_cons, plainifyList_eq_map vs]

mutual

theorem plainify_of_plain : (v : PyVal) → plainVal v = true → plainify v = v
  | .num _, _ => rfl
  | .list vs, h => by
    rw [plainify, plainifyList_of_plain vs (by simpa [plainVal] using h)]
  | .nparr _, h => by simp [plainVal] at h
  | .tensor _, h => by simp [plainVal] at h

theorem plainifyList_of_plain :
    (vs : List PyVal) → plainValList vs = true → plainifyList vs = vs
  | [], _ => rfl
  | v :: vs, h => by
    obtain ⟨h1, h2⟩ := Bool.and_eq_true .. ▸ h
    rw [plainifyList, plainify_of_plain v h1, plainifyList_of_plain vs h2]

end

/-- An all-tensor series is materialized elementwise by
`cpu().numpy().tolist()`. -/
theorem mapM_cpu_of_tensors :
    ∀ vs : List PyVal, vs.all hasCpu = true →
      vs.mapM cpuNumpyTolist = some (vs.map plainify)
  | [], _ => rfl
  | v :: vs, h => by
    obtain ⟨h1, h2⟩ := Bool.and_eq_true .. ▸ (List.all_cons .. ▸ h)
    obtain ⟨ws, rfl⟩ : ∃ ws, v = .tensor ws := by
      cases v <;> simp_all [hasCpu]
    rw [List.mapM_cons, mapM_cpu_of_tensors vs h2]
    simp [cpuNumpyTolist, plainify, plainifyList_eq_map]

/-- An all-ndarray series is materialized elementwise by `tolist()`. -/
theorem mapM_tolist_of_ndarrays :
    ∀ vs : List PyVal, vs.all isNdarray = true →
      vs.mapM tolist = some (vs.map plainify)
  | [], _ => rfl
  | v :: vs, h => by
    obtain ⟨h1, h2⟩ := Bool.and_eq_true .. ▸ (List.all_cons .. ▸ h)
    obtain ⟨ws, rfl⟩ : ∃ ws, v = .nparr ws := by
      cases v <;> simp_all [isNdarray]
    rw [List.mapM_cons, mapM_tolist_of_ndarrays vs h2]
    simp [tolist, plainify, plainifyList_eq_map]

/-- On a homogeneous series, `_convert_log`'s per-series conversion agrees
with the spec's normalization to plain nested numeric lists. -/
theorem convertSeries_good (vs : List PyVal) (h : goodSeries vs = true) :
    convertSeries vs = some (specNormalizeSeries vs) := by
  cases vs with
  | nil => rfl
  | cons v0 rest =>
    rw [goodSeries, Bool.or_eq_true, Bool.or_eq_true] at h
    rcases h with (hcpu | hnd) | hplain
    · have h0 : hasCpu v0 = true := by
        have := List.all_cons .. ▸ hcpu
        exact (Bool.and_eq_true .. ▸ this).1
      rw [convertSeries, if_pos h0, mapM_cpu_of_tensors _ hcpu]
      rfl
    · have h0 : isNdarray v0 = true := by
        have := List.all_cons .. ▸ hnd
        exact (Bool.and_eq_true .. ▸ this).1
      have h0c : hasCpu v0 = false := by cases v0 <;> simp_all [hasCpu, isNdarray]
      rw [convertSeries, if_neg (by simp [h0c]), if_pos h0,
        mapM_tolist_of_ndarrays _ hnd]
      rfl
    · have h0 : plainVal v0 = true := by
        have hsplit : (plainVal v0 && plainValList rest) = true := hplain
        exact (Bool.and_eq_true .. ▸ hsplit).1
      have h0c : hasCpu v0 = false := by cases v0 <;> simp_all [hasCpu, plainVal]
      have h0n : isNdarray v0 = false := by cases v0 <;> simp_all [isNdarray, plainVal]
      rw [convertSeries, if_neg (by simp [h0c]), if_neg (by simp [h0n])]
      rw [specNormalizeSeries, ← plainifyList_eq_map, plainifyList_of_plain _ hplain]

/-- `_convert_log` over a mapping of homogeneous series normalizes every
series. -/
theorem convertLog_good (log : List (String × List PyVal))
    (h : ∀ p ∈ log, goodSeries p.2 = true) :
    convertLog log = some (log.map (fun p => (p.1, specNormalizeSeries p.2))) := by
  induction log with
  | nil => rfl
  | cons p rest ih =>
    rw [convertLog, List.mapM_cons,
      convertSeries_good p.2 (h p (List.mem_cons_self p rest))]
    rw [convertLog] at ih
    rw [ih (fun q hq => h q (List.mem_cons_of_mem p hq))]
    rfl

/-! ## The claims

The arithmetic operations of `ℚ` are marked irreducible upstream; they are
made semireducible here so that concrete executions of the embedded
functions can be settled by `decide`. -/

section ClaimTheorems

attribute [local semireducible] Rat.add Rat.mul Rat.inv Rat.sub

/-- Claim C1: for the four-line log `Step 0:` / `Output Torque: [1.0, -2.0]`
/ `Step 1:` / `Output Torque: [3.0, -4.0]`, extracting the torque kind
returns steps `[0, 1]` and matrix `[[1, -2], [3, -4]]`, and the statistics
of that matrix are max_abs `[3, 4]`, mean `[2, -3]`, mean_abs `[2, 3]` and
std `[1, 1]` (variance `[1, 1]` with nonnegative square roots `[1, 1]`). -/
theorem C1_example_pipeline :
    parse_log_data torqueKind
      ["Step 0:".toList, "Output Torque: [1.0, -2.0]".toList,
       "Step 1:".toList, "Output Torque: [3.0, -4.0]".toList] =
      some ([0, 1], [[1, -2], [3, -4]]) ∧
    calculate_stats [[1, -2], [3, -4]] =
      some { max_abs := [3, 4], mean := [2, -3], mean_abs := [2, 3],
             var := [1, 1] } ∧
    isStdList [1, 1] [1, 1] = true := by
  refine ⟨by decide, by decide, by decide⟩

/-- Claim C2: whenever `parse_log_data` returns a result, the step list and
the matrix have equal lengths and all matrix rows have identical length;
and when the emitted rows have differing lengths the extraction fails
(`np.array` refuses inhomogeneous rows) instead of returning a coerced
result. -/
theorem C2_shape :
    (∀ (d : DataKind) (lines : List (List Char)) (steps : List Nat)
        (mat : List (List ℚ)), parse_log_data d lines = some (steps, mat) →
      steps.length = mat.length ∧ ∀ r ∈ mat, ∀ r2 ∈ mat, r.length = r2.length) ∧
    (∀ (d : DataKind) (lines : List (List Char)) (steps : List Nat)
        (mat : List (List ℚ)), scanLoop d lines none = some (steps, mat) →
      (∃ r ∈ mat, ∃ r2 ∈ mat, r.length ≠ r2.length) →
      parse_log_data d lines = none) := by
  constructor
  · intro d lines steps mat h
    unfold parse_log_data at h
    rcases hs : scanLoop d lines none with _ | ⟨s0, m0⟩
    · simp [hs] at h
    · simp only [hs] at h
      rcases hn : npArray m0 with _ | m1
      · simp [hn] at h
      · simp only [hn, Option.some.injEq] at h
        obtain ⟨h1, h2⟩ := Prod.mk.injEq .. ▸ h
        obtain ⟨hm, huni⟩ := npArray_some m0 m1 hn
        subst h1 h2
        exact ⟨hm ▸ scanLoop_length d lines none s0 m0 hs, hm ▸ huni⟩
  · intro d lines steps mat h hrag
    unfold parse_log_data
    simp only [h, npArray_ragged mat hrag]

/-- Witness for C2: a well-formed log satisfies the shape invariant, and a
log whose two torque lines carry 1 and 2 values fails the extraction. -/
theorem C2_witness :
    (([0, 1] : List Nat).length = ([[1, -2], [3, -4]] : List (List ℚ)).length ∧
      ∀ r ∈ ([[1, -2], [3, -4]] : List (List ℚ)),
        ∀ r2 ∈ ([[1, -2], [3, -4]] : List (List ℚ)), r.length = r2.length) ∧
    parse_log_data torqueKind
      ["Step 0:".toList, "Output Torque: [1.0]".toList,
       "Output Torque: [1.0, 2.0]".toList] = none := by
  constructor
  · exact C2_shape.1 torqueKind
      ["Step 0:".toList, "Output Torque: [1.0, -2.0]".toList,
       "Step 1:".toList, "Output Torque: [3.0, -4.0]".toList]
      [0, 1] [[1, -2], [3, -4]] (by decide)
  · exact C2_shape.2 torqueKind
      ["Step 0:".toList, "Output Torque: [1.0]".toList,
       "Output Torque: [1.0, 2.0]".toList]
      [0, 0] [[1], [1, 2]] (by decide) (by decide)

/-- Claim C3: `log_rewards {"total_rew": 2.0} 3` on a logger with
`num_episodes = 5` appends `6.0` to `rew_log["total_rew"]` and leaves
`num_episodes = 8`; an entry whose name does not contain `"rew"` is
ignored (only the episode counter advances). -/
theorem C3_log_rewards :
    (∀ lg : Logger, lg.num_episodes = 5 →
      lg.log_rewards [("total_rew", 2)] 3 =
        { lg with rew_log := dictAppend lg.rew_log "total_rew" (.num 6),
                  num_episodes := 8 }) ∧
    (∀ (lg : Logger) (k : String) (v : ℚ) (n : Int),
      isSubstring ("rew".toList) k.toList = false →
      lg.log_rewards [(k, v)] n =
        { lg with num_episodes := lg.num_episodes + n }) := by
  constructor
  · intro lg h
    rw [Logger.log_rewards]
    simp only [List.foldl_cons, List.foldl_nil]
    rw [if_pos (by decide)]
    have hval : PyVal.num (2 * ((3 : Int) : ℚ)) = PyVal.num 6 := by norm_num
    rw [hval, h]
    norm_num
  · intro lg k v n hk
    have hk2 : isSubstring (['r', 'e', 'w']) k.data = false := hk
    rw [Logger.log_rewards]
    simp only [List.foldl_cons, List.foldl_nil]
    rw [if_neg (by simp [hk2])]

/-- Witness for C3 at the concrete logger `⟨[], [], 1, 5⟩`. -/
theorem C3_witness :
    Logger.log_rewards ⟨[], [], 1, 5⟩ [("total_rew", 2)] 3 =
      ⟨[], [("total_rew", [.num 6])], 1, 8⟩ ∧
    Logger.log_rewards ⟨[], [], 1, 5⟩ [("speed", 2)] 3 = ⟨[], [], 1, 8⟩ := by
  constructor
  · rw [C3_log_rewards.1 ⟨[], [], 1, 5⟩ rfl]
    decide
  · rw [C3_log_rewards.2 ⟨[], [], 1, 5⟩ "speed" 2 3 (by decide)]
    decide

/-- Counterexample to claim C4 as stated: the state whose only series is
`[1.0, np.array([2.0])]` (first element a plain number) is saved unchanged
— `_convert_log` dispatches on the first element only — and loading the
written pickle file returns that unnormalized series, which differs from
the original series normalized to plain nested numeric lists. -/
theorem C4_counterexample :
    Logger.save ⟨[("k", [.num 1, .nparr [.num 2]])], [], 1, 0⟩ "pkl" =
      some (.ok ⟨"pkl", ⟨1, [("k", [.num 1, .nparr [.num 2]])], [], 0⟩⟩) ∧
    Logger.load ⟨[], [], 0, 0⟩
        ⟨"pkl", ⟨1, [("k", [.num 1, .nparr [.num 2]])], [], 0⟩⟩ =
      .ok ⟨[("k", [.num 1, .nparr [.num 2]])], [], 1, 0⟩ ∧
    [("k", [PyVal.num 1, .nparr [.num 2]])] ≠
      [("k", specNormalizeSeries [PyVal.num 1, .nparr [.num 2]])] := by
  refine ⟨by decide, by decide, by decide⟩

/-- Claim C4 (amended): for every logger whose every series is homogeneous
(all tensors, all numpy arrays, or all plain values), saving in a
supported format and loading the written file yields a logger with the
original `dt` and `num_episodes` and every series equal to the original
normalized to plain nested numeric lists. -/
theorem C4_roundtrip (lg lg0 : Logger) (fmt : String)
    (hfmt : fmt = "json" ∨ fmt = "pkl")
    (hs : ∀ p ∈ lg.state_log, goodSeries p.2 = true)
    (hr : ∀ p ∈ lg.rew_log, goodSeries p.2 = true) :
    ∃ f : SavedFile, lg.save fmt = some (Except.ok f) ∧
      lg0.load f = Except.ok
        { state_log := lg.state_log.map (fun p => (p.1, specNormalizeSeries p.2)),
          rew_log := lg.rew_log.map (fun p => (p.1, specNormalizeSeries p.2)),
          dt := lg.dt, num_episodes := lg.num_episodes } := by
  have hmk : lg.mkSaveData = some
      ⟨lg.dt, lg.state_log.map (fun p => (p.1, specNormalizeSeries p.2)),
        lg.rew_log.map (fun p => (p.1, specNormalizeSeries p.2)),
        lg.num_episodes⟩ := by
    rw [Logger.mkSaveData, convertLog_good _ hs]
    simp only [Option.bind_eq_bind, Option.some_bind]
    rw [convertLog_good _ hr]
    rfl
  rcases hfmt with rfl | rfl
  · refine ⟨⟨"json", ⟨lg.dt, lg.state_log.map (fun p => (p.1, specNormalizeSeries p.2)),
      lg.rew_log.map (fun p => (p.1, specNormalizeSeries p.2)), lg.num_episodes⟩⟩, ?_, ?_⟩
    · rw [Logger.save, hmk]
      simp
    · rw [Logger.load]
      simp
  · refine ⟨⟨"pkl", ⟨lg.dt, lg.state_log.map (fun p => (p.1, specNormalizeSeries p.2)),
      lg.rew_log.map (fun p => (p.1, specNormalizeSeries p.2)), lg.num_episodes⟩⟩, ?_, ?_⟩
    · rw [Logger.save, hmk]
      simp
    · rw [Logger.load]
      simp

/-- Witness for C4 (amended): a logger holding one all-tensor state series
and one plain reward series round-trips through `save`/`load` into the
normalized form. -/
theorem C4_witness :
    ∃ f : SavedFile,
      Logger.save ⟨[("k", [.tensor [.num 1], .tensor [.num 2]])],
        [("total_rew", [.num 3])], 1, 7⟩ "json" = some (Except.ok f) ∧
      Logger.load ⟨[], [], 0, 0⟩ f = Except.ok
        { state_log := [("k", [PyVal.tensor [.num 1], .tensor [.num 2]])].map
            (fun p => (p.1, specNormalizeSeries p.2)),
          rew_log := [("total_rew", [PyVal.num 3])].map
            (fun p => (p.1, specNormalizeSeries p.2)),
          dt := 1, num_episodes := 7 } :=
  C4_roundtrip ⟨[("k", [.tensor [.num 1], .tensor [.num 2]])],
    [("total_rew", [.num 3])], 1, 7⟩ ⟨[], [], 0, 0⟩ "json" (Or.inl rfl)
    (by decide) (by decide)

/-- Counterexample to claim C5 as stated: the one-line log
`Output Torque: [-]` has a data line whose captured list holds the
malformed token `-`, yet — because no step declaration precedes it — the
extraction succeeds with an empty result instead of failing. -/
theorem C5_counterexample :
    dataFind torqueKind ("Output Torque: [-]".toList) = some ("-".toList) ∧
    parseVals ("-".toList) = none ∧
    parse_log_data torqueKind ["Output Torque: [-]".toList] = some ([], []) := by
  refine ⟨by decide, by decide, by decide⟩

/-- Claim C5 (amended): a data line whose captured list holds a malformed
numeric token, reached at a point where a step index is defined (a step
declaration occurs on or before that line), makes `parse_log_data` fail
for the whole file: no `(steps, matrix)` result is returned and nothing
after the line is recovered. -/
theorem C5_malformed_aborts (d : DataKind) (pre : List (List Char))
    (line : List Char) (post : List (List Char)) (cap : List Char)
    (htr : trackStep none (pre ++ [line]) ≠ none)
    (hd : dataFind d line = some cap) (hv : parseVals cap = none) :
    parse_log_data d (pre ++ line :: post) = none :=
  parse_of_scanLoop_none d _ (scanLoop_malformed d line post cap hd hv pre none htr)

/-- Witness for C5 (amended): after `Step 0:`, the malformed line
`Output Torque: [-]` aborts the whole extraction. -/
theorem C5_witness :
    parse_log_data torqueKind
      (["Step 0:".toList] ++ "Output Torque: [-]".toList :: []) = none :=
  C5_malformed_aborts torqueKind ["Step 0:".toList] ("Output Torque: [-]".toList)
    [] ("-".toList) (by decide) (by decide) (by decide)

/-- Claim C6: the step rule is applied before the data rule on every line
and the two are evaluated independently: a line matching both emits a
record tagged with the step declared on that same line (whatever the
previous step was), and a data line processed before any step declaration
emits no record and raises no error — even its tokens are never parsed. -/
theorem C6_rule_order :
    (∀ (d : DataKind) (line : List Char) (rest : List (List Char))
        (cur : Option Nat) (n : Nat) (cap : List Char) (vs : List ℚ),
      stepFind line = some n → dataFind d line = some cap →
      parseVals cap = some vs →
      scanLoop d (line :: rest) cur =
        (scanLoop d rest (some n)).map (fun p => (n :: p.1, vs :: p.2))) ∧
    (∀ (d : DataKind) (line : List Char) (rest : List (List Char))
        (cap : List Char),
      stepFind line = none → dataFind d line = some cap →
      scanLoop d (line :: rest) none = scanLoop d rest none) := by
  constructor
  · intro d line rest cur n cap vs hstep hd hv
    have hs : updateStep cur line = some n := by simp [updateStep, hstep]
    rw [scanLoop_cons_hit d line rest cur cap n hd hs]
    simp only [hv]
  · intro d line rest cap hstep hd
    have hs : updateStep none line = none := by simp [updateStep, hstep]
    rw [scanLoop_cons_no_step d line rest none hs, hs]

/-- Witness for C6: the line `Step 7: Output Torque: [1.0]` matches both
rules and is tagged 7 even though the previous step was 3; a data line
with no prior step is skipped without error. -/
theorem C6_witness :
    scanLoop torqueKind ["Step 7: Output Torque: [1.0]".toList] (some 3) =
      some ([7], [[1]]) ∧
    scanLoop torqueKind ["Output Torque: [2.5]".toList] none = some ([], []) := by
  constructor
  · rw [C6_rule_order.1 torqueKind ("Step 7: Output Torque: [1.0]".toList) []
      (some 3) 7 ("1.0".toList) [1] (by decide) (by decide) (by decide)]
    decide
  · rw [C6_rule_order.2 torqueKind ("Output Torque: [2.5]".toList) []
      ("2.5".toList) (by decide) (by decide)]
    rfl

/-- Claim C7 is `corrected`; this is the amended form: on every single-row
matrix `calculate_stats` yields zero variance in every channel (hence
`np.std` is zero everywhere, confirming the population — divide by `N` —
convention, where the sample convention would divide by zero), the mean is
the row itself and max-absolute and mean-absolute are its absolute values;
when all entries are *nonnegative* (rather than merely of one sign, see
the counterexample) the absolute values coincide with the row, so mean and
mean-absolute agree. -/
theorem C7_single_row :
    (∀ r : List ℚ,
      calculate_stats [r] =
        some { max_abs := r.map (fun x => |x|), mean := r,
               mean_abs := r.map (fun x => |x|),
               var := List.replicate r.length 0 } ∧
      isStdList (List.replicate r.length 0) (List.replicate r.length 0) = true) ∧
    (∀ r : List ℚ, (∀ x ∈ r, 0 ≤ x) → r.map (fun x => |x|) = r) := by
  constructor
  · intro r
    exact ⟨calculate_stats_single r, isStdList_zeros r.length⟩
  · intro r
    induction r with
    | nil => intro _; rfl
    | cons a as ih =>
      intro h
      simp only [List.map_cons]
      rw [abs_of_nonneg (h a (List.mem_cons_self a as)),
        ih (fun x hx => h x (List.mem_cons_of_mem a hx))]

/-- Counterexample to claim C7 as stated: on the single-row matrix
`[[-1.0]]` all entries share the same (negative) sign, yet the mean is
`[-1]` while the mean of absolute values is `[1]` — they differ. -/
theorem C7_counterexample :
    (∀ x ∈ [(-1 : ℚ)], x < 0) ∧
    (calculate_stats [[-1]]).map StatsResult.mean = some [-1] ∧
    (calculate_stats [[-1]]).map StatsResult.mean_abs = some [1] := by
  refine ⟨by decide, by decide, by decide⟩

/-- Witness for C7 (amended) at the nonnegative single row `[2, 3]`. -/
theorem C7_witness :
    calculate_stats [[2, 3]] =
      some { max_abs := [2, 3], mean := [2, 3], mean_abs := [2, 3],
             var := List.replicate 2 0 } ∧
    [(2 : ℚ), 3].map (fun x => |x|) = [2, 3] := by
  have h1 := (C7_single_row.1 [(2 : ℚ), 3]).1
  have h2 := C7_single_row.2 [(2 : ℚ), 3] (by decide)
  constructor
  · rw [h1]
    decide
  · exact h2

/-- Claim C8: `save` with a format other than `json`/`pkl` returns the
named `ValueError` (and never a written file), and `load` on a path whose
suffix is not `json`/`pkl` returns the named `ValueError` before reading
any data. -/
theorem C8_unsupported_format :
    (∀ (lg : Logger) (fmt : String), fmt ≠ "json" → fmt ≠ "pkl" →
      ∀ r, lg.save fmt = some r →
        r = .error ("Unsupported format: " ++ fmt)) ∧
    (∀ (lg : Logger) (f : SavedFile), f.fmt ≠ "json" → f.fmt ≠ "pkl" →
      lg.load f = .error ("Unsupported format: " ++ f.fmt)) := by
  constructor
  · intro lg fmt h1 h2 r hr
    rw [Logger.save] at hr
    rcases hm : lg.mkSaveData with _ | d
    · rw [hm] at hr
      exact absurd hr (by simp)
    · rw [hm, Option.map_some', Option.some.injEq, if_neg h1, if_neg h2] at hr
      exact hr.symm
  · intro lg f h1 h2
    rw [Logger.load, if_neg h1, if_neg h2]

/-- Witness for C8 with the unsupported format `txt`. -/
theorem C8_witness :
    Logger.save ⟨[], [], 1, 0⟩ "txt" =
      some (Except.error ("Unsupported format: " ++ "txt")) ∧
    Logger.load ⟨[], [], 1, 0⟩ ⟨"txt", ⟨1, [], [], 0⟩⟩ =
      Except.error ("Unsupported format: " ++ "txt") := by
  constructor
  · rcases h : Logger.save ⟨[], [], 1, 0⟩ "txt" with _ | r
    · exact absurd h (by decide)
    · rw [C8_unsupported_format.1 ⟨[], [], 1, 0⟩ "txt" (by decide) (by decide) r h]
  · exact C8_unsupported_format.2 ⟨[], [], 1, 0⟩ ⟨"txt", ⟨1, [], [], 0⟩⟩
      (by decide) (by decide)

/-- Claim C9: `reset` empties both mappings while leaving `num_episodes`
and `dt` unchanged, and a `log_state` call right after `reset` produces a
state log holding only the newly recorded series. -/
theorem C9_reset_frame :
    ∀ (lg : Logger) (k : String) (v : PyVal),
      lg.reset.state_log = [] ∧ lg.reset.rew_log = [] ∧
      lg.reset.num_episodes = lg.num_episodes ∧ lg.reset.dt = lg.dt ∧
      (lg.reset.log_state k v).state_log = [(k, [v])] := by
  intro lg k v
  exact ⟨rfl, rfl, rfl, rfl, rfl⟩

/-- Claim C10 (implicit): a line on which the data pattern finds no match
— such as `Output Torque: [1e-3]`, whose bracketed list holds the
character `e`, outside the pattern's `[-\d\., ]` class — is silently
skipped: it emits no record and raises no parse failure, and the
extraction of the whole file succeeds with the line ignored. -/
theorem C10_unmatched_line_skipped :
    (∀ (d : DataKind) (line : List Char) (rest : List (List Char))
        (cur : Option Nat),
      dataFind d line = none →
      scanLoop d (line :: rest) cur = scanLoop d rest (updateStep cur line)) ∧
    dataFind torqueKind ("Output Torque: [1e-3]".toList) = none ∧
    parse_log_data torqueKind ["Output Torque: [1e-3]".toList] = some ([], []) := by
  refine ⟨scanLoop_cons_no_data, by decide, by decide⟩

/-- Witness for C10 at the exponent-notation line. -/
theorem C10_witness :
    scanLoop torqueKind ["Output Torque: [1e-3]".toList] (some 5) =
      scanLoop torqueKind []
        (updateStep (some 5) ("Output Torque: [1e-3]".toList)) :=
  C10_unmatched_line_skipped.1 torqueKind ("Output Torque: [1e-3]".toList) []
    (some 5) (by decide)

end ClaimTheorems
